import Mathlib

/-!
Verification of the local-transcript-app job pipeline and output formatters.

Program text is modelled shallowly: Python strings become `List Char`
(so every operation is structurally recursive and kernel-computable),
float seconds become `ℚ`, the SQLite job store becomes a list of job
records, and the worker dispatch loop becomes a step relation on a
store state.  Every definition is translated from the corresponding
function in `apps/worker` or `apps/api` of the repository.
-/

namespace LocalTranscript

/-- Program strings are modelled as lists of characters. -/
abbrev Str := List Char

/-- Python `sep.join(parts)`: parts interleaved with the separator. -/
def joinWith (sep : Str) : List Str → Str
  | [] => []
  | [x] => x
  | x :: y :: rest => x ++ sep ++ joinWith sep (y :: rest)

/-- Python `s.replace(old, new)` for a single-character pattern. -/
def replaceChar (c : Char) (repl : Str) : Str → Str
  | [] => []
  | x :: rest => (if x = c then repl else [x]) ++ replaceChar c repl rest

/-- Helper for `pySplit`: accumulates the current word (reversed). -/
def splitAux : Str → Str → List Str
  | [], acc => if acc = [] then [] else [acc.reverse]
  | c :: rest, acc =>
    if c.isWhitespace then
      (if acc = [] then [] else [acc.reverse]) ++ splitAux rest []
    else splitAux rest (c :: acc)

/-- Python `s.split()` with no argument: split on whitespace runs,
dropping empty pieces. -/
def pySplit (s : Str) : List Str := splitAux s []

/-- Python `s.strip()`: drop leading and trailing whitespace. -/
def pyStrip (s : Str) : Str :=
  ((s.dropWhile Char.isWhitespace).reverse.dropWhile Char.isWhitespace).reverse

/-- Decimal rendering of a natural number. -/
def natStr (n : ℕ) : Str := (Nat.repr n).data

/-- Python format `{n:02d}` for a non-negative value. -/
def pad2 (n : ℕ) : Str := if n < 10 then '0' :: natStr n else natStr n

/-- Python format `{n:03d}` for a non-negative value. -/
def pad3 (n : ℕ) : Str :=
  if n < 10 then '0' :: '0' :: natStr n
  else if n < 100 then '0' :: natStr n
  else natStr n

/-- Python `a % b` on floats, for positive `b`: `a - b * floor (a / b)`. -/
def pyMod (a b : ℚ) : ℚ := a - b * ⌊a / b⌋

/-- The four numeric fields computed by `_format_srt_time` and
`_format_vtt_time` in `output_formatter.py` (and by the identical
`format_timestamp_srt` / `format_timestamp_vtt` in `routes/export.py`):
`int(seconds // 3600)`, `int((seconds % 3600) // 60)`,
`int(seconds % 60)`, `int((seconds % 1) * 1000)`.  For `seconds ≥ 0`
Python `int` truncation agrees with the floor. -/
structure TimeParts where
  hours : ℤ
  minutes : ℤ
  secs : ℤ
  millis : ℤ
  deriving DecidableEq, Repr

/-- Field computation shared by the SRT and VTT timestamp formatters. -/
def timeParts (seconds : ℚ) : TimeParts where
  hours := ⌊seconds / 3600⌋
  minutes := ⌊pyMod seconds 3600 / 60⌋
  secs := ⌊pyMod seconds 60⌋
  millis := ⌊pyMod seconds 1 * 1000⌋

/-- Reading a formatted timestamp back:
`hours * 3600 + minutes * 60 + secs + millis / 1000`. -/
def parseTimeParts (p : TimeParts) : ℚ :=
  (p.hours : ℚ) * 3600 + (p.minutes : ℚ) * 60 + (p.secs : ℚ) + (p.millis : ℚ) / 1000

/-- Model of `_format_srt_time`: `HH:MM:SS,mmm` with a comma separator. -/
def format_srt_time (seconds : ℚ) : Str :=
  let p := timeParts seconds
  pad2 p.hours.toNat ++ [':'] ++ pad2 p.minutes.toNat ++ [':'] ++
    pad2 p.secs.toNat ++ [','] ++ pad3 p.millis.toNat

/-- Model of `_format_vtt_time`: `HH:MM:SS.mmm` with a period separator. -/
def format_vtt_time (seconds : ℚ) : Str :=
  let p := timeParts seconds
  pad2 p.hours.toNat ++ [':'] ++ pad2 p.minutes.toNat ++ [':'] ++
    pad2 p.secs.toNat ++ ['.'] ++ pad3 p.millis.toNat

/-! ### Segment model and output formatter (`apps/worker/output_formatter.py`) -/

/-- A transcript segment (`Segment` dataclass): start and end time in
seconds and the text.  The Python field `end` is a Lean keyword, so it
is called `stop` here. -/
structure Segment where
  start : ℚ
  stop : ℚ
  text : Str
  deriving DecidableEq, Repr

/-- Model of `_clean_text_for_subtitles`: collapse whitespace runs to single
spaces via `" ".join(text.split())`, then escape `&`, `<`, `>` in that
order. -/
def clean_text_for_subtitles (text : Str) : Str :=
  let collapsed := joinWith [' '] (pySplit text)
  replaceChar '>' "&gt;".data
    (replaceChar '<' "&lt;".data
      (replaceChar '&' "&amp;".data collapsed))

/-- The `srt_lines` list built by `generate_srt`: enumerate the
segments from 1, skip a segment whose cleaned text is empty (the index
still advances), and for each kept segment append the index line, the
timing line, the text line and a blank line. -/
def srtLines : List Segment → ℕ → List Str
  | [], _ => []
  | seg :: rest, i =>
    let text := clean_text_for_subtitles seg.text
    (if text = [] then [] else
      [natStr i, format_srt_time seg.start ++ " --> ".data ++ format_srt_time seg.stop,
       text, []]) ++ srtLines rest (i + 1)

/-- Model of `generate_srt`: file content is `"\n".join(srt_lines)`. -/
def generate_srt (segments : List Segment) : Str :=
  joinWith ['\n'] (srtLines segments 1)

/-- The block lines built by `generate_vtt` after the `WEBVTT` header:
like SRT but with period timestamps and no index line. -/
def vttLines : List Segment → List Str
  | [] => []
  | seg :: rest =>
    let text := clean_text_for_subtitles seg.text
    (if text = [] then [] else
      [format_vtt_time seg.start ++ " --> ".data ++ format_vtt_time seg.stop,
       text, []]) ++ vttLines rest

/-- Model of `generate_vtt`: `"\n".join(["WEBVTT", ""] + blocks)`. -/
def generate_vtt (segments : List Segment) : Str :=
  joinWith ['\n'] ("WEBVTT".data :: [] :: vttLines segments)

/-- The lines built by `generate_txt`: skip empty stripped text;
with timestamps each line is `[MM:SS] text`, otherwise just the text. -/
def txtLines (include_timestamps : Bool) : List Segment → List Str
  | [] => []
  | seg :: rest =>
    let text := pyStrip seg.text
    (if text = [] then [] else
      [if include_timestamps then
        ['['] ++ pad2 (Int.toNat ⌊seg.start / 60⌋) ++ [':'] ++
          pad2 (Int.toNat ⌊pyMod seg.start 60⌋) ++ "] ".data ++ text
      else text]) ++ txtLines include_timestamps rest

/-- Collapse runs of spaces to a single space, modelling the
regex substitution of multiple spaces in `generate_txt`. -/
def collapseSpaces : Str → Str
  | [] => []
  | [c] => [c]
  | c :: d :: rest =>
    if c = ' ' ∧ d = ' ' then collapseSpaces (d :: rest)
    else c :: collapseSpaces (d :: rest)

/-- Model of `generate_txt`: join the lines with `"\n"` (timestamped) or a
space, then collapse multiple spaces. -/
def generate_txt (segments : List Segment) (include_timestamps : Bool) : Str :=
  collapseSpaces
    (joinWith (if include_timestamps then ['\n'] else [' '])
      (txtLines include_timestamps segments))

/-- Round half to even on `ℚ` (CPython `round` tie behaviour). -/
def roundHalfEven (x : ℚ) : ℤ :=
  if x - ⌊x⌋ < 1/2 then ⌊x⌋
  else if 1/2 < x - ⌊x⌋ then ⌊x⌋ + 1
  else if ⌊x⌋ % 2 = 0 then ⌊x⌋ else ⌊x⌋ + 1

/-- Python `round(x, ndigits)` modelled on rationals. -/
def pyRound (x : ℚ) (ndigits : ℕ) : ℚ :=
  (roundHalfEven (x * 10 ^ ndigits) : ℚ) / 10 ^ ndigits

/-- Fields of `Segment.to_dict`: start and end rounded to 3 decimal places,
text stripped. -/
structure SegOut where
  start : ℚ
  stop : ℚ
  text : Str
  deriving DecidableEq, Repr

/-- Model of `Segment.to_dict` in `output_formatter.py`. -/
def segToDict (seg : Segment) : SegOut where
  start := pyRound seg.start 3
  stop := pyRound seg.stop 3
  text := pyStrip seg.text

/-- The JSON object assembled by `generate_json`: the `duration` key
is only inserted when the segment list is non-empty, and the
`metadata` key only when metadata was passed. -/
structure JsonData where
  segments : List SegOut
  segment_count : ℕ
  duration : Option ℚ
  metadata : Option Str
  deriving DecidableEq, Repr

/-- Model of `generate_json` in `output_formatter.py`: `duration` is
`round(segments[-1].end, 2)` when the list is non-empty, absent
otherwise. -/
def generate_json (segments : List Segment) (metadata : Option Str) : JsonData where
  segments := segments.map segToDict
  segment_count := segments.length
  duration :=
    match segments.getLast? with
    | some seg => some (pyRound seg.stop 2)
    | none => none
  metadata := metadata

/-! ### Export helpers (`apps/api/routes/export.py`)

The export route carries segments as plain dicts with `start`, `end`,
`text`; the same `Segment` structure models them.  Unlike the worker
formatter, `segments_to_srt` and `segments_to_vtt` do not clean the
text and do not skip empty segments, and `segments_to_vtt` emits the
numeric index line as well. -/

/-- Lines built by `segments_to_srt` in `routes/export.py`. -/
def segmentsToSrtLines : List Segment → ℕ → List Str
  | [], _ => []
  | seg :: rest, i =>
    [natStr i, format_srt_time seg.start ++ " --> ".data ++ format_srt_time seg.stop,
     seg.text, []] ++ segmentsToSrtLines rest (i + 1)

/-- Model of `segments_to_srt` in `routes/export.py`. -/
def segments_to_srt (segments : List Segment) : Str :=
  joinWith ['\n'] (segmentsToSrtLines segments 1)

/-- Lines built by `segments_to_vtt` in `routes/export.py`; note the
index line `lines.append(f"{i}")` present in the source. -/
def segmentsToVttLines : List Segment → ℕ → List Str
  | [], _ => []
  | seg :: rest, i =>
    [natStr i, format_vtt_time seg.start ++ " --> ".data ++ format_vtt_time seg.stop,
     seg.text, []] ++ segmentsToVttLines rest (i + 1)

/-- Model of `segments_to_vtt` in `routes/export.py`. -/
def segments_to_vtt (segments : List Segment) : Str :=
  joinWith ['\n'] ("WEBVTT".data :: [] :: segmentsToVttLines segments 1)

/-! ### Job and transcript read model (`apps/api`) -/

/-- The `JobStatus` enum in `models.py`. -/
inductive Status
  | queued
  | running
  | done
  | failed
  deriving DecidableEq, Repr

/-- The `JobType` enum in `models.py`. -/
inductive JobType
  | file_upload
  | youtube_captions
  | youtube_auto_ingest
  deriving DecidableEq, Repr

/-- The `ExportFormat` enum in `models.py`. -/
inductive ExportFormat
  | txt
  | srt
  | vtt
  | json
  deriving DecidableEq, Repr

/-- The values of the `ModelSize` enum in `models.py` (the model
values the public API accepts). -/
def modelSizeValues : List Str :=
  ["tiny".data, "base".data, "small".data, "medium".data, "large".data]

/-- The fields of a `transcripts` row that the read paths consult.
`edited_text` is NULL or a stored string (possibly empty);
`edited_segments_json` is NULL or the parsed list stored by
`save_transcript_edits` (which never stores an empty list, since
`json.dumps` is only applied `if edited_segments`). -/
structure TranscriptRow where
  edited_text : Option Str
  edited_segments : Option (List Segment)
  deriving DecidableEq, Repr

/-- Python truthiness of an optional string: false for NULL and for
the empty string. -/
def truthyStr : Option Str → Bool
  | none => false
  | some s => s ≠ []

/-- An HTTP error raised by a route: status code and detail message. -/
structure HttpError where
  code : ℕ
  detail : Str
  deriving DecidableEq, Repr

/-- Result of `GET /api/jobs/id/transcript`. -/
structure TranscriptResponse where
  text : Str
  segments : List Segment
  edited : Bool
  deriving DecidableEq, Repr

/-- Model of `get_transcript` in `routes/jobs.py`, as a function of the job
row (if any), the transcript row (if any), and the stored original
text and segments loaded from the output files.  The edited branch is
taken only when `edited_text` is truthy; inside it the edited
segments are used when present, else the original segments. -/
def get_transcript (job : Option Status) (row : Option TranscriptRow)
    (origText : Str) (origSegs : List Segment) :
    Except HttpError TranscriptResponse :=
  match job with
  | none => .error ⟨404, "Job not found".data⟩
  | some st =>
    if st ≠ .done then .error ⟨409, "Transcript not ready".data⟩
    else
      let r : TranscriptResponse :=
        match row with
        | some t =>
          if truthyStr t.edited_text then
            match t.edited_segments with
            | some segs => ⟨t.edited_text.getD [], segs, true⟩
            | none => ⟨t.edited_text.getD [], origSegs, true⟩
          else ⟨origText, origSegs, false⟩
        | none => ⟨origText, origSegs, false⟩
      if r.text = [] ∧ r.segments = [] then
        .error ⟨404, "Transcript files not found".data⟩
      else .ok r

/-- Export content: the subtitle and text formats are strings; the
JSON format is returned as the structured payload that
`json.dumps` would serialize. -/
inductive ExportContent
  | textContent (s : Str)
  | jsonContent (text : Str) (segments : List Segment)
  deriving DecidableEq, Repr

/-- The segment data the export route works with: the edited
segments when the transcript row stores some, else the segments
loaded from the stored artifact. -/
def exportSegments (row : Option TranscriptRow) (origSegs : List Segment) :
    List Segment :=
  match row with
  | some t =>
    match t.edited_segments with
    | some segs => segs
    | none => origSegs
  | none => origSegs

/-- The text the export route works with: the edited text when
truthy, else the stored plain-text artifact. -/
def exportText (row : Option TranscriptRow) (origText : Str) : Str :=
  match row with
  | some t => if truthyStr t.edited_text then t.edited_text.getD [] else origText
  | none => origText

/-- Model of `export_transcript` in `routes/export.py`: check the job exists
and is done, prefer edited segments and edited text independently,
404 when neither segments nor text exist, and for `srt`/`vtt` reject
segment-less data with a 400 before formatting. -/
def export_transcript (fmt : ExportFormat) (job : Option Status)
    (row : Option TranscriptRow) (origText : Str) (origSegs : List Segment) :
    Except HttpError ExportContent :=
  match job with
  | none => .error ⟨404, "Job not found".data⟩
  | some st =>
    if st ≠ .done then .error ⟨409, "Transcript not ready".data⟩
    else
      let segments := exportSegments row origSegs
      let text := exportText row origText
      if segments = [] ∧ text = [] then
        .error ⟨404, "Transcript data not found".data⟩
      else
        match fmt with
        | .txt =>
          .ok (.textContent (if text ≠ [] then text
            else joinWith [' '] (segments.map Segment.text)))
        | .srt =>
          if segments = [] then
            .error ⟨400, "SRT export requires segment data with timestamps".data⟩
          else .ok (.textContent (segments_to_srt segments))
        | .vtt =>
          if segments = [] then
            .error ⟨400, "VTT export requires segment data with timestamps".data⟩
          else .ok (.textContent (segments_to_vtt segments))
        | .json => .ok (.jsonContent text segments)

/-! ### Worker dispatch model (`apps/worker/main.py`)

The `jobs` table is a list of job rows.  Each row additionally
carries a ghost `history` field recording every status the row has
held, in order, so that temporal claims about observed status
sequences can be stated. -/

/-- One row of the `jobs` table, plus the observation history. -/
structure Job where
  id : ℕ
  job_type : JobType
  model : Str
  status : Status
  createdAt : ℕ
  history : List Status
  deriving DecidableEq, Repr

/-- Model of `Worker.get_next_job`, the query selecting the single
oldest queued row — the queued job with the smallest
`created_at` (leftmost in insertion order on a tie). -/
def get_next_job : List Job → Option Job
  | [] => none
  | j :: rest =>
    let r := get_next_job rest
    if j.status = .queued then
      match r with
      | none => some j
      | some k => if j.createdAt ≤ k.createdAt then some j else some k
    else r

/-- Model of `Worker.update_job_status` applied to the store: set the status
of the row with the given id (and record the write in its history). -/
def update_job_status (jobs : List Job) (id : ℕ) (st : Status) : List Job :=
  jobs.map fun j =>
    if j.id = id then { j with status := st, history := j.history ++ [st] } else j

/-- Dispatcher state: the job store plus the id of the job currently
inside `process_job` after its `running` write, if any. -/
structure WState where
  jobs : List Job
  inFlight : Option ℕ
  deriving DecidableEq, Repr

/-- Transitions of the worker loop together with job creation by the
API layer.  `claim` is the `update_job_status(job_id, "running")`
write at the top of `process_job`; `finish` is the single terminal
write (`done` after `save_transcript_paths`, or `failed` in one of
the exception branches); `create` is `create_job` inserting a fresh
`queued` row; `idle` is an empty poll. -/
inductive WStep : WState → WState → Prop
  | create (s : WState) (j : Job)
      (hfresh : ∀ k ∈ s.jobs, k.id ≠ j.id)
      (hst : j.status = .queued) (hh : j.history = [.queued]) :
      WStep s ⟨s.jobs ++ [j], s.inFlight⟩
  | claim (s : WState) (j : Job)
      (hidle : s.inFlight = none) (hj : get_next_job s.jobs = some j) :
      WStep s ⟨update_job_status s.jobs j.id .running, some j.id⟩
  | finish (s : WState) (id : ℕ) (ok : Bool)
      (hrun : s.inFlight = some id) :
      WStep s ⟨update_job_status s.jobs id (if ok then .done else .failed), none⟩
  | idle (s : WState) : WStep s s

/-- States reachable from the empty store by worker and API steps. -/
inductive Reachable : WState → Prop
  | init : Reachable ⟨[], none⟩
  | step {s t : WState} : Reachable s → WStep s t → Reachable t

/-- The status sequences a job row may exhibit: a prefix of
`queued, running, done` or of `queued, running, failed`. -/
def okHistory (h : List Status) : Prop :=
  h = [.queued] ∨ h = [.queued, .running] ∨
    h = [.queued, .running, .done] ∨ h = [.queued, .running, .failed]

/-! ### Pipeline and cleanup model (`apps/worker`)

The filesystem is a list of abstract paths; each constructor stands
for one concrete file name used by the worker (all within the
job-scoped output directory, hence pairwise distinct). -/

/-- Files the pipelines touch. -/
inductive FsPath
  | uploaded (name : Str)
  | normalized (jobId : ℕ)
  | downloaded (jobId : ℕ)
  | artifact (jobId : ℕ) (fmt : ExportFormat)
  deriving DecidableEq, Repr

/-- An abstract filesystem: the set of existing files. -/
abbrev FS := List FsPath

/-- The set `Transcriber.VALID_MODELS` in `transcriber.py`. -/
def VALID_MODELS : List Str :=
  ["tiny".data, "base".data, "small".data, "medium".data,
   "large-v2".data, "large-v3".data]

/-- Model of `Transcriber.__init__`: raises `TranscriberError` when the model
size is not in `VALID_MODELS`. -/
def transcriberInit (model_size : Str) : Except Str Unit :=
  if model_size ∈ VALID_MODELS then .ok ()
  else .error ("Invalid model: ".data ++ model_size)

/-- Error classes a pipeline surfaces to `process_job`; each
corresponds to one `except` branch there. -/
inductive PipelineError
  | fileNotFound
  | audioProcessorError
  | transcriberError
  | youtubeHandlerError
  | noCaptionsError
  | durationExceededError
  | valueError
  deriving DecidableEq, Repr

/-- Outcomes of the external engine calls in a file-upload run. -/
structure UploadEnv where
  inputExists : Bool
  normalizeOk : Bool
  transcribeOk : Bool
  deriving DecidableEq, Repr

/-- The four artifacts `generate_all` writes for a job. -/
def artifactPaths (jobId : ℕ) : List FsPath :=
  [.artifact jobId .json, .artifact jobId .txt,
   .artifact jobId .srt, .artifact jobId .vtt]

/-- Model of `Worker.process_file_upload` as a filesystem transformer: check
the input, normalize (creating the normalized file), construct the
transcriber (per-job model when it differs from the default),
transcribe, generate outputs, and only then unlink the normalized
file.  There is no `finally` in the source: an exception in the
transcriber constructor or the transcribe call propagates with the
normalized file still present. -/
def process_file_upload (jobId : ℕ) (model defaultModel : Str)
    (env : UploadEnv) (fs : FS) :
    Except PipelineError (List FsPath) × FS :=
  if ¬ env.inputExists then (.error .fileNotFound, fs)
  else if ¬ env.normalizeOk then (.error .audioProcessorError, fs)
  else
    let fs1 := FsPath.normalized jobId :: fs
    match (if model ≠ defaultModel then transcriberInit model
           else transcriberInit defaultModel) with
    | .error _ => (.error .transcriberError, fs1)
    | .ok _ =>
      if ¬ env.transcribeOk then (.error .transcriberError, fs1)
      else
        let fs2 := artifactPaths jobId ++ fs1
        (.ok (artifactPaths jobId), fs2.filter (· ≠ FsPath.normalized jobId))

/-- Outcomes of the external engine calls in an auto-ingest run. -/
structure IngestEnv where
  enabled : Bool
  urlPresent : Bool
  durationOk : Bool
  downloadOk : Bool
  normalizeOk : Bool
  transcribeOk : Bool
  deriving DecidableEq, Repr

/-- The body of the `try` in `process_youtube_auto_ingest`, returning
the result together with the filesystem before the `finally` runs. -/
def autoIngestTry (jobId : ℕ) (model defaultModel : Str)
    (env : IngestEnv) (fs : FS) :
    Except PipelineError (List FsPath) × FS :=
  if ¬ env.durationOk then (.error .durationExceededError, fs)
  else if ¬ env.downloadOk then (.error .youtubeHandlerError, fs)
  else
    let fs1 := FsPath.downloaded jobId :: fs
    if ¬ env.normalizeOk then (.error .audioProcessorError, fs1)
    else
      let fs2 := FsPath.normalized jobId :: fs1
      match (if model ≠ defaultModel then transcriberInit model
             else transcriberInit defaultModel) with
      | .error _ => (.error .transcriberError, fs2)
      | .ok _ =>
        if ¬ env.transcribeOk then (.error .transcriberError, fs2)
        else (.ok (artifactPaths jobId), artifactPaths jobId ++ fs2)

/-- Model of `Worker.process_youtube_auto_ingest`: the enablement and URL
checks happen before the `try`; the `finally` removes the downloaded
file (`cleanup_download`) and unlinks the normalized file regardless
of the outcome. -/
def process_youtube_auto_ingest (jobId : ℕ) (model defaultModel : Str)
    (env : IngestEnv) (fs : FS) :
    Except PipelineError (List FsPath) × FS :=
  if ¬ env.enabled then (.error .valueError, fs)
  else if ¬ env.urlPresent then (.error .valueError, fs)
  else
    let r := autoIngestTry jobId model defaultModel env fs
    (r.1, r.2.filter fun p =>
      p ≠ FsPath.downloaded jobId ∧ p ≠ FsPath.normalized jobId)

/-- The terminal status `process_job` writes for a pipeline outcome:
`done` on success (after `save_transcript_paths`), `failed` in every
`except` branch. -/
def statusAfterProcess (r : Except PipelineError (List FsPath)) : Status :=
  match r with
  | .ok _ => .done
  | .error _ => .failed

/-! ### Block decompositions of the subtitle outputs

These regroup the flat line lists of the generators into their
emitted blocks, to state the block shape of the outputs. -/

/-- The lines of a block list, each block followed by a blank line
(the shape every subtitle generator produces before joining). -/
def linesOf : List (List Str) → List Str
  | [] => []
  | c :: rest => c ++ [[]] ++ linesOf rest

/-- The blocks `generate_srt` emits: for each kept segment the index
line (1-based position in the original list), the timing line and the
cleaned text line. -/
def srtChunks : List Segment → ℕ → List (List Str)
  | [], _ => []
  | seg :: rest, i =>
    let text := clean_text_for_subtitles seg.text
    (if text = [] then [] else
      [[natStr i, format_srt_time seg.start ++ " --> ".data ++ format_srt_time seg.stop,
        text]]) ++ srtChunks rest (i + 1)

/-- The blocks `generate_vtt` emits after the header: timing line and
cleaned text line, no index line. -/
def vttChunks : List Segment → List (List Str)
  | [] => []
  | seg :: rest =>
    let text := clean_text_for_subtitles seg.text
    (if text = [] then [] else
      [[format_vtt_time seg.start ++ " --> ".data ++ format_vtt_time seg.stop,
        text]]) ++ vttChunks rest

/-- The blocks the export route `segments_to_vtt` emits: a numeric
index line, the timing line, and the raw text line. -/
def exportVttChunks : List Segment → ℕ → List (List Str)
  | [], _ => []
  | seg :: rest, i =>
    [[natStr i, format_vtt_time seg.start ++ " --> ".data ++ format_vtt_time seg.stop,
      seg.text]] ++ exportVttChunks rest (i + 1)

/-- Invariant of the worker dispatch system: row ids are unique,
every history is one of the legal sequences and ends in the current
status, and the in-flight row (if any) exists and is `running`. -/
def WInv (s : WState) : Prop :=
  (s.jobs.map Job.id).Nodup ∧
  (∀ j ∈ s.jobs, okHistory j.history ∧ j.history.getLast? = some j.status) ∧
  (∀ id, s.inFlight = some id →
    ∃ j ∈ s.jobs, j.id = id ∧ j.status = .running)

/-- A sample fresh job row used to exercise the dispatch model. -/
def sampleJob : Job :=
  ⟨0, .file_upload, "small".data, .queued, 0, [.queued]⟩

/-- A second sample job row, created later than `sampleJob`. -/
def sampleJob2 : Job :=
  ⟨1, .file_upload, "small".data, .queued, 7, [.queued]⟩

/-! ### Structure lemmas for the joined outputs -/

theorem joinWith_cons_cons (sep x y : Str) (rest : List Str) :
    joinWith sep (x :: y :: rest) = x ++ sep ++ joinWith sep (y :: rest) := rfl

theorem joinWith_append (sep : Str) (xs ys : List Str) (hx : xs ≠ []) (hy : ys ≠ []) :
    joinWith sep (xs ++ ys) = joinWith sep xs ++ sep ++ joinWith sep ys := by
  induction xs with
  | nil => exact absurd rfl hx
  | cons x rest ih =>
    cases rest with
    | nil =>
      cases ys with
      | nil => exact absurd rfl hy
      | cons y t => simp [joinWith]
    | cons x' rest' =>
      have h := ih (by simp)
      simp only [List.cons_append, joinWith_cons_cons]
      rw [List.cons_append x' rest' ys] at h
      rw [h]
      simp [List.append_assoc]

theorem linesOf_ne_nil {chunks : List (List Str)} (h : chunks ≠ []) :
    linesOf chunks ≠ [] := by
  cases chunks with
  | nil => exact absurd rfl h
  | cons c rest => simp [linesOf]

theorem joinWith_linesOf (chunks : List (List Str)) (hne : ∀ c ∈ chunks, c ≠ []) :
    joinWith ['\n'] (linesOf chunks) =
      joinWith ['\n', '\n'] (chunks.map (joinWith ['\n'])) ++
        (if chunks = [] then [] else ['\n']) := by
  induction chunks with
  | nil => simp [linesOf, joinWith]
  | cons c rest ih =>
    have hc : c ≠ [] := hne c (List.mem_cons_self c rest)
    by_cases hrest : rest = []
    · subst hrest
      show joinWith ['\n'] (c ++ [[]] ++ linesOf []) = _
      rw [show linesOf ([] : List (List Str)) = [] from rfl, List.append_nil]
      rw [joinWith_append ['\n'] c [[]] hc (by simp)]
      simp [joinWith]
    · show joinWith ['\n'] (c ++ [[]] ++ linesOf rest) = _
      rw [List.append_assoc c [[]] (linesOf rest)]
      rw [joinWith_append ['\n'] c ([[]] ++ linesOf rest) hc (by simp)]
      have hlr : linesOf rest ≠ [] := linesOf_ne_nil hrest
      cases hL : linesOf rest with
      | nil => exact absurd hL hlr
      | cons l ls =>
        rw [show ([[]] ++ (l :: ls) : List Str) = [] :: l :: ls from rfl]
        rw [joinWith_cons_cons ['\n'] [] l ls, ← hL]
        rw [ih (fun d hd => hne d (List.mem_cons_of_mem c hd))]
        cases hR : rest with
        | nil => exact absurd hR hrest
        | cons r rs =>
          rw [← hR]
          have hmap : rest.map (joinWith ['\n']) ≠ [] := by
            rw [hR]; simp
          cases hM : rest.map (joinWith ['\n']) with
          | nil => exact absurd hM hmap
          | cons m ms =>
            simp only [List.map_cons, hM, joinWith_cons_cons]
            simp [hR, List.append_assoc]

theorem srtLines_eq_linesOf (segs : List Segment) (i : ℕ) :
    srtLines segs i = linesOf (srtChunks segs i) := by
  induction segs generalizing i with
  | nil => rfl
  | cons seg rest ih =>
    by_cases h : clean_text_for_subtitles seg.text = [] <;>
      simp [srtLines, srtChunks, h, linesOf, ih]

theorem vttLines_eq_linesOf (segs : List Segment) :
    vttLines segs = linesOf (vttChunks segs) := by
  induction segs with
  | nil => rfl
  | cons seg rest ih =>
    by_cases h : clean_text_for_subtitles seg.text = [] <;>
      simp [vttLines, vttChunks, h, linesOf, ih]

theorem segmentsToVttLines_eq_linesOf (segs : List Segment) (i : ℕ) :
    segmentsToVttLines segs i = linesOf (exportVttChunks segs i) := by
  induction segs generalizing i with
  | nil => rfl
  | cons seg rest ih => simp [segmentsToVttLines, exportVttChunks, linesOf, ih]

theorem srtChunks_mem_ne_nil (segs : List Segment) (i : ℕ) :
    ∀ c ∈ srtChunks segs i, c ≠ [] := by
  induction segs generalizing i with
  | nil => simp [srtChunks]
  | cons seg rest ih =>
    intro c hc
    by_cases h : clean_text_for_subtitles seg.text = []
    · simp only [srtChunks, h, if_pos rfl] at hc
      simp only [h, if_pos] at hc
      exact ih (i + 1) c (by simpa using hc)
    · simp only [srtChunks, if_neg h] at hc
      rcases (by simpa using hc :
          c = [natStr i, format_srt_time seg.start ++ " --> ".data ++ format_srt_time seg.stop,
            clean_text_for_subtitles seg.text] ∨ c ∈ srtChunks rest (i + 1)) with h1 | h2
      · subst h1; simp
      · exact ih (i + 1) c h2

theorem vttChunks_mem_ne_nil (segs : List Segment) :
    ∀ c ∈ vttChunks segs, c ≠ [] := by
  induction segs with
  | nil => simp [vttChunks]
  | cons seg rest ih =>
    intro c hc
    by_cases h : clean_text_for_subtitles seg.text = []
    · simp only [vttChunks, h, if_pos] at hc
      exact ih c (by simpa using hc)
    · simp only [vttChunks, if_neg h] at hc
      rcases (by simpa using hc :
          c = [format_vtt_time seg.start ++ " --> ".data ++ format_vtt_time seg.stop,
            clean_text_for_subtitles seg.text] ∨ c ∈ vttChunks rest) with h1 | h2
      · subst h1; simp
      · exact ih c h2

theorem exportVttChunks_mem_ne_nil (segs : List Segment) (i : ℕ) :
    ∀ c ∈ exportVttChunks segs i, c ≠ [] := by
  induction segs generalizing i with
  | nil => simp [exportVttChunks]
  | cons seg rest ih =>
    intro c hc
    simp only [exportVttChunks] at hc
    rcases (by simpa using hc :
        c = [natStr i, format_vtt_time seg.start ++ " --> ".data ++ format_vtt_time seg.stop,
          seg.text] ∨ c ∈ exportVttChunks rest (i + 1)) with h1 | h2
    · subst h1; simp
    · exact ih (i + 1) c h2

theorem generate_srt_blocks (segs : List Segment) :
    generate_srt segs =
      joinWith ['\n', '\n'] ((srtChunks segs 1).map (joinWith ['\n'])) ++
        (if srtChunks segs 1 = [] then [] else ['\n']) := by
  rw [generate_srt, srtLines_eq_linesOf]
  exact joinWith_linesOf _ (srtChunks_mem_ne_nil segs 1)

theorem vtt_body_blocks (segs : List Segment) :
    joinWith ['\n'] (vttLines segs) =
      joinWith ['\n', '\n'] ((vttChunks segs).map (joinWith ['\n'])) ++
        (if vttChunks segs = [] then [] else ['\n']) := by
  rw [vttLines_eq_linesOf]
  exact joinWith_linesOf _ (vttChunks_mem_ne_nil segs)

theorem generate_vtt_blocks (segs : List Segment) :
    generate_vtt segs =
      "WEBVTT\n".data ++
        (if vttChunks segs = [] then [] else
          '\n' :: (joinWith ['\n', '\n'] ((vttChunks segs).map (joinWith ['\n'])) ++ ['\n'])) := by
  rw [generate_vtt]
  by_cases h : vttChunks segs = []
  · have hl : vttLines segs = [] := by
      rw [vttLines_eq_linesOf, h]; rfl
    simp [hl, joinWith, h]
  · have hl : vttLines segs ≠ [] := by
      rw [vttLines_eq_linesOf]
      exact linesOf_ne_nil h
    cases hL : vttLines segs with
    | nil => exact absurd hL hl
    | cons l ls =>
      rw [joinWith_cons_cons, joinWith_cons_cons, ← hL, vtt_body_blocks segs]
      simp [h, List.append_assoc]

theorem segments_to_vtt_blocks (segs : List Segment) :
    segments_to_vtt segs =
      "WEBVTT\n".data ++
        (if segs = [] then [] else
          '\n' :: (joinWith ['\n', '\n'] ((exportVttChunks segs 1).map (joinWith ['\n'])) ++ ['\n'])) := by
  rw [segments_to_vtt]
  by_cases h : segs = []
  · subst h
    simp [segmentsToVttLines, joinWith]
  · have hchunks : exportVttChunks segs 1 ≠ [] := by
      cases segs with
      | nil => exact absurd rfl h
      | cons s rest => simp [exportVttChunks]
    have hl : segmentsToVttLines segs 1 ≠ [] := by
      rw [segmentsToVttLines_eq_linesOf]
      exact linesOf_ne_nil hchunks
    cases hL : segmentsToVttLines segs 1 with
    | nil => exact absurd hL hl
    | cons l ls =>
      rw [joinWith_cons_cons, joinWith_cons_cons, ← hL]
      rw [segmentsToVttLines_eq_linesOf,
        joinWith_linesOf _ (exportVttChunks_mem_ne_nil segs 1)]
      simp [h, hchunks, List.append_assoc]

theorem srtChunks_enum (segs : List Segment) (i : ℕ) :
    srtChunks segs i =
      ((List.enumFrom i segs).filter
          (fun p => clean_text_for_subtitles p.2.text ≠ [])).map
        (fun p =>
          [natStr p.1,
           format_srt_time p.2.start ++ " --> ".data ++ format_srt_time p.2.stop,
           clean_text_for_subtitles p.2.text]) := by
  induction segs generalizing i with
  | nil => rfl
  | cons seg rest ih =>
    by_cases h : clean_text_for_subtitles seg.text = [] <;>
      simp [srtChunks, List.enumFrom, List.filter, h, ih]

theorem vttChunks_filter (segs : List Segment) :
    vttChunks segs =
      (segs.filter (fun s => clean_text_for_subtitles s.text ≠ [])).map
        (fun s =>
          [format_vtt_time s.start ++ " --> ".data ++ format_vtt_time s.stop,
           clean_text_for_subtitles s.text]) := by
  induction segs with
  | nil => rfl
  | cons seg rest ih =>
    by_cases h : clean_text_for_subtitles seg.text = [] <;>
      simp [vttChunks, List.filter, h, ih]

theorem exportVttChunks_enum (segs : List Segment) (i : ℕ) :
    exportVttChunks segs i =
      (List.enumFrom i segs).map
        (fun p =>
          [natStr p.1,
           format_vtt_time p.2.start ++ " --> ".data ++ format_vtt_time p.2.stop,
           p.2.text]) := by
  induction segs generalizing i with
  | nil => rfl
  | cons seg rest ih => simp [exportVttChunks, List.enumFrom, ih]

/-! ### Timestamp arithmetic -/

theorem timeParts_minutes (s : ℚ) :
    (timeParts s).minutes = ⌊s / 60⌋ - 60 * ⌊s / 3600⌋ := by
  show ⌊pyMod s 3600 / 60⌋ = ⌊s / 60⌋ - 60 * ⌊s / 3600⌋
  unfold pyMod
  have h : (s - 3600 * ⌊s / 3600⌋) / 60 = s / 60 - ((60 * ⌊s / 3600⌋ : ℤ) : ℚ) := by
    push_cast
    ring
  rw [h, Int.floor_sub_int]

theorem timeParts_secs (s : ℚ) :
    (timeParts s).secs = ⌊s⌋ - 60 * ⌊s / 60⌋ := by
  show ⌊pyMod s 60⌋ = ⌊s⌋ - 60 * ⌊s / 60⌋
  unfold pyMod
  have h : s - 60 * ⌊s / 60⌋ = s - ((60 * ⌊s / 60⌋ : ℤ) : ℚ) := by
    push_cast
    ring
  rw [h, Int.floor_sub_int]

theorem timeParts_millis (s : ℚ) :
    (timeParts s).millis = ⌊s * 1000⌋ - 1000 * ⌊s⌋ := by
  show ⌊pyMod s 1 * 1000⌋ = ⌊s * 1000⌋ - 1000 * ⌊s⌋
  unfold pyMod
  have h : (s - 1 * ⌊s / 1⌋) * 1000 = s * 1000 - ((1000 * ⌊s⌋ : ℤ) : ℚ) := by
    push_cast
    rw [div_one]
    ring
  rw [h, Int.floor_sub_int]

theorem parseTimeParts_timeParts (s : ℚ) :
    parseTimeParts (timeParts s) = (⌊s * 1000⌋ : ℚ) / 1000 := by
  unfold parseTimeParts
  rw [timeParts_minutes, timeParts_secs, timeParts_millis]
  show (⌊s / 3600⌋ : ℚ) * 3600 + ((⌊s / 60⌋ - 60 * ⌊s / 3600⌋ : ℤ) : ℚ) * 60 +
      ((⌊s⌋ - 60 * ⌊s / 60⌋ : ℤ) : ℚ) + ((⌊s * 1000⌋ - 1000 * ⌊s⌋ : ℤ) : ℚ) / 1000 =
    (⌊s * 1000⌋ : ℚ) / 1000
  push_cast
  ring

theorem format_srt_time_eval (s : ℚ) (a b c d : ℕ) (h : timeParts s = ⟨a, b, c, d⟩) :
    format_srt_time s = pad2 a ++ [':'] ++ pad2 b ++ [':'] ++ pad2 c ++ [','] ++ pad3 d := by
  unfold format_srt_time
  rw [h]
  simp

theorem format_vtt_time_eval (s : ℚ) (a b c d : ℕ) (h : timeParts s = ⟨a, b, c, d⟩) :
    format_vtt_time s = pad2 a ++ [':'] ++ pad2 b ++ [':'] ++ pad2 c ++ ['.'] ++ pad3 d := by
  unfold format_vtt_time
  rw [h]
  simp

theorem format_srt_time_zero : format_srt_time 0 = "00:00:00,000".data := by
  rw [format_srt_time_eval 0 0 0 0 0 (by unfold timeParts pyMod; norm_num)]
  decide

theorem format_srt_time_one : format_srt_time 1 = "00:00:01,000".data := by
  rw [format_srt_time_eval 1 0 0 1 0 (by unfold timeParts pyMod; norm_num)]
  decide

theorem format_srt_time_two : format_srt_time 2 = "00:00:02,000".data := by
  rw [format_srt_time_eval 2 0 0 2 0 (by unfold timeParts pyMod; norm_num)]
  decide

theorem format_srt_time_half_three : format_srt_time (5/2) = "00:00:02,500".data := by
  rw [format_srt_time_eval (5/2) 0 0 2 500 (by unfold timeParts pyMod; norm_num)]
  decide

theorem format_vtt_time_zero : format_vtt_time 0 = "00:00:00.000".data := by
  rw [format_vtt_time_eval 0 0 0 0 0 (by unfold timeParts pyMod; norm_num)]
  decide

theorem format_vtt_time_one : format_vtt_time 1 = "00:00:01.000".data := by
  rw [format_vtt_time_eval 1 0 0 1 0 (by unfold timeParts pyMod; norm_num)]
  decide

/-- C7: for every `seconds ≥ 0`, the numeric fields printed by the SRT
and VTT timestamp formatters, read back as
`hours * 3600 + minutes * 60 + secs + millis / 1000`, give exactly the
millisecond truncation of the input, hence recover it to millisecond
precision (the parsed value differs from the original by less than
`1/1000`, never exceeding it). -/
theorem c7_timestamp_roundtrip (s : ℚ) (hs : 0 ≤ s) :
    parseTimeParts (timeParts s) = (⌊s * 1000⌋ : ℚ) / 1000 ∧
    0 ≤ s - parseTimeParts (timeParts s) ∧
    s - parseTimeParts (timeParts s) < 1 / 1000 := by
  refine ⟨parseTimeParts_timeParts s, ?_, ?_⟩
  · rw [parseTimeParts_timeParts]
    rw [sub_nonneg, div_le_iff₀ (by norm_num : (0:ℚ) < 1000)]
    exact Int.floor_le (s * 1000)
  · rw [parseTimeParts_timeParts]
    have h2 : s * 1000 < (⌊s * 1000⌋ : ℚ) + 1 := Int.lt_floor_add_one (s * 1000)
    have hge := hs
    linarith

theorem c7_timestamp_roundtrip_witness :
    0 ≤ (5/2 : ℚ) ∧ (5/2 : ℚ) - parseTimeParts (timeParts (5/2)) < 1 / 1000 :=
  ⟨by norm_num, (c7_timestamp_roundtrip (5/2) (by norm_num)).2.2⟩

/-- C5 (counterexample): the single segment
`{start 0, end 2.5, text "Hello world"}` does not yield the claimed
string ending in a double newline — the generated content ends in a
single newline; and when an empty-text segment precedes a kept one,
the emitted block is numbered by the original enumerate position (2),
not by emission order (1). -/
theorem c5_srt_counterexample :
    generate_srt [⟨0, 5/2, "Hello world".data⟩] ≠
      "1\n00:00:00,000 --> 00:00:02,500\nHello world\n\n".data ∧
    generate_srt [⟨0, 5/2, "Hello world".data⟩] =
      "1\n00:00:00,000 --> 00:00:02,500\nHello world\n".data ∧
    generate_srt [⟨0, 1, ([] : Str)⟩, ⟨1, 2, "Hi".data⟩] =
      "2\n00:00:01,000 --> 00:00:02,000\nHi\n".data := by
  have hclean : clean_text_for_subtitles "Hello world".data = "Hello world".data := by
    decide
  have h1 : generate_srt [⟨0, 5/2, "Hello world".data⟩] =
      joinWith ['\n'] [natStr 1,
        format_srt_time 0 ++ " --> ".data ++ format_srt_time (5/2),
        "Hello world".data, []] := by
    simp [generate_srt, srtLines, hclean]
  have hclean2 : clean_text_for_subtitles ([] : Str) = ([] : Str) := by decide
  have hclean3 : clean_text_for_subtitles "Hi".data = "Hi".data := by decide
  have h2 : generate_srt [⟨0, 1, ([] : Str)⟩, ⟨1, 2, "Hi".data⟩] =
      joinWith ['\n'] [natStr 2,
        format_srt_time 1 ++ " --> ".data ++ format_srt_time 2,
        "Hi".data, []] := by
    simp [generate_srt, srtLines, hclean2, hclean3]
  rw [h1, h2, format_srt_time_zero, format_srt_time_half_three,
    format_srt_time_one, format_srt_time_two]
  refine ⟨?_, ?_, ?_⟩ <;> decide

/-- C5 (amended): the SRT content is the emitted blocks
`{index}\n{start} --> {end}\n{text}` separated by blank lines with a
single trailing newline (no final blank line); the timestamps use the
floor fields with comma millisecond separator; an emitted block keeps
the 1-based position of its segment in the original list — skipped
empty-text segments still advance the numbering, so the index
reflects the original position, not the emission order.  The single
segment `{start 0, end 2.5, text "Hello world"}` yields exactly
`1\n00:00:00,000 --> 00:00:02,500\nHello world\n`. -/
theorem c5_srt_output (segs : List Segment) :
    (generate_srt segs =
      joinWith ['\n', '\n'] ((srtChunks segs 1).map (joinWith ['\n'])) ++
        (if srtChunks segs 1 = [] then [] else ['\n'])) ∧
    (∀ i, srtChunks segs i =
      ((List.enumFrom i segs).filter
          (fun p => clean_text_for_subtitles p.2.text ≠ [])).map
        (fun p =>
          [natStr p.1,
           format_srt_time p.2.start ++ " --> ".data ++ format_srt_time p.2.stop,
           clean_text_for_subtitles p.2.text])) ∧
    generate_srt [⟨0, 5/2, "Hello world".data⟩] =
      "1\n00:00:00,000 --> 00:00:02,500\nHello world\n".data := by
  refine ⟨generate_srt_blocks segs, fun i => srtChunks_enum segs i, ?_⟩
  have hclean : clean_text_for_subtitles "Hello world".data = "Hello world".data := by
    decide
  have h1 : generate_srt [⟨0, 5/2, "Hello world".data⟩] =
      joinWith ['\n'] [natStr 1,
        format_srt_time 0 ++ " --> ".data ++ format_srt_time (5/2),
        "Hello world".data, []] := by
    simp [generate_srt, srtLines, hclean]
  rw [h1, format_srt_time_zero, format_srt_time_half_three]
  decide

/-- C8 (counterexample): the export route `segments_to_vtt` emits a
numeric index line before each timing line, so the claim that no
VTT-producing path emits numeric index lines fails on it: for one
segment the output is `WEBVTT\n\n1\n00:00:00.000 --> 00:00:01.000\nHi\n`
and differs from the index-free form. -/
theorem c8_vtt_counterexample :
    segments_to_vtt [⟨0, 1, "Hi".data⟩] =
      "WEBVTT\n\n1\n00:00:00.000 --> 00:00:01.000\nHi\n".data ∧
    segments_to_vtt [⟨0, 1, "Hi".data⟩] ≠
      "WEBVTT\n\n00:00:00.000 --> 00:00:01.000\nHi\n".data := by
  have h1 : segments_to_vtt [⟨0, 1, "Hi".data⟩] =
      joinWith ['\n'] ["WEBVTT".data, [], natStr 1,
        format_vtt_time 0 ++ " --> ".data ++ format_vtt_time 1,
        "Hi".data, []] := by
    simp [segments_to_vtt, segmentsToVttLines]
  rw [h1, format_vtt_time_zero, format_vtt_time_one]
  exact ⟨by decide, by decide⟩

/-- C8 (amended): the worker `generate_vtt` output is the `WEBVTT`
header, a blank line, and blocks `{start} --> {end}\n{text}` with
period-separated timestamps and no numeric index line; but the export
route `segments_to_vtt` additionally emits a numeric cue-identifier
line (the 1-based segment position) before each timing line, so the
no-index property does not extend to that path. -/
theorem c8_vtt_output (segs : List Segment) :
    (generate_vtt segs =
      "WEBVTT\n".data ++
        (if vttChunks segs = [] then [] else
          '\n' :: (joinWith ['\n', '\n'] ((vttChunks segs).map (joinWith ['\n'])) ++ ['\n']))) ∧
    (vttChunks segs =
      (segs.filter (fun s => clean_text_for_subtitles s.text ≠ [])).map
        (fun s =>
          [format_vtt_time s.start ++ " --> ".data ++ format_vtt_time s.stop,
           clean_text_for_subtitles s.text])) ∧
    (segments_to_vtt segs =
      "WEBVTT\n".data ++
        (if segs = [] then [] else
          '\n' :: (joinWith ['\n', '\n'] ((exportVttChunks segs 1).map (joinWith ['\n'])) ++ ['\n']))) ∧
    (∀ i, exportVttChunks segs i =
      (List.enumFrom i segs).map
        (fun p =>
          [natStr p.1,
           format_vtt_time p.2.start ++ " --> ".data ++ format_vtt_time p.2.stop,
           p.2.text])) :=
  ⟨generate_vtt_blocks segs, vttChunks_filter segs,
   segments_to_vtt_blocks segs, fun i => exportVttChunks_enum segs i⟩

/-! ### Rounding bounds and the JSON artifact (C6) -/

theorem roundHalfEven_close (x : ℚ) : |(roundHalfEven x : ℚ) - x| ≤ 1/2 := by
  unfold roundHalfEven
  have h0 : (⌊x⌋ : ℚ) ≤ x := Int.floor_le x
  have h1 : x < ⌊x⌋ + 1 := Int.lt_floor_add_one x
  by_cases hlt : x - ⌊x⌋ < 1/2
  · rw [if_pos hlt, abs_le]
    constructor <;> linarith
  · rw [if_neg hlt]
    by_cases hgt : 1/2 < x - ⌊x⌋
    · rw [if_pos hgt]
      push_cast
      rw [abs_le]
      constructor <;> linarith
    · rw [if_neg hgt]
      have heq : x - ⌊x⌋ = 1/2 := le_antisymm (not_lt.mp hgt) (not_lt.mp hlt)
      by_cases hev : ⌊x⌋ % 2 = 0
      · rw [if_pos hev, abs_le]
        constructor <;> linarith
      · rw [if_neg hev]
        push_cast
        rw [abs_le]
        constructor <;> linarith

theorem pyRound_close (x : ℚ) (n : ℕ) : |pyRound x n - x| ≤ 1 / (2 * 10 ^ n) := by
  unfold pyRound
  have hpos : (0:ℚ) < 10 ^ n := by positivity
  have hrw : (roundHalfEven (x * 10 ^ n) : ℚ) / 10 ^ n - x =
      ((roundHalfEven (x * 10 ^ n) : ℚ) - x * 10 ^ n) / 10 ^ n := by
    field_simp
    ring
  rw [hrw, abs_div, abs_of_pos hpos]
  rw [div_le_iff₀ hpos]
  have h := roundHalfEven_close (x * 10 ^ n)
  calc |(roundHalfEven (x * 10 ^ n) : ℚ) - x * 10 ^ n| ≤ 1/2 := h
    _ = 1 / (2 * 10 ^ n) * 10 ^ n := by
        field_simp

/-- C6 (counterexample): `generate_json` rounds the duration to 2
decimal places — for a single segment ending at `1.239` the duration
is `1.24`, not the segment end — and for the empty list the
`duration` key is absent rather than `0`. -/
theorem c6_json_counterexample :
    (generate_json [⟨0, 1239/1000, "x".data⟩] none).duration = some (31/25) ∧
    (generate_json [⟨0, 1239/1000, "x".data⟩] none).duration ≠ some (1239/1000) ∧
    (generate_json ([] : List Segment) none).duration = none := by
  have h : pyRound (1239/1000) 2 = 31/25 := by
    unfold pyRound roundHalfEven
    norm_num
  have h1 : (generate_json [⟨0, 1239/1000, "x".data⟩] none).duration =
      some (pyRound (1239/1000) 2) := rfl
  refine ⟨by rw [h1, h], by rw [h1, h]; intro hc; injection hc with hc2; norm_num at hc2, rfl⟩

/-- C6 (amended): `segment_count` is the length of the segment list
and each emitted segment has start/end rounded to 3 decimal places
(so within `1/2000` of the input) with the text stripped of
leading/trailing whitespace; the `duration` field is present exactly
for non-empty lists and then equals the end of the last segment
rounded to 2 decimal places (within `1/200` of it); for the empty
list the key is absent rather than `0`. -/
theorem c6_json_output (segs : List Segment) (md : Option Str) :
    (generate_json segs md).segment_count = segs.length ∧
    (generate_json segs md).segments = segs.map segToDict ∧
    (∀ seg : Segment,
      |(segToDict seg).start - seg.start| ≤ 1/2000 ∧
      |(segToDict seg).stop - seg.stop| ≤ 1/2000 ∧
      (segToDict seg).text = pyStrip seg.text) ∧
    (segs = [] → (generate_json segs md).duration = none) ∧
    (∀ last, segs.getLast? = some last →
      (generate_json segs md).duration = some (pyRound last.stop 2) ∧
      |pyRound last.stop 2 - last.stop| ≤ 1/200) := by
  refine ⟨rfl, rfl, ?_, ?_, ?_⟩
  · intro seg
    refine ⟨?_, ?_, rfl⟩
    · have := pyRound_close seg.start 3
      norm_num at this ⊢
      exact this
    · have := pyRound_close seg.stop 3
      norm_num at this ⊢
      exact this
  · intro h
    subst h
    rfl
  · intro last hlast
    constructor
    · show (match segs.getLast? with
        | some seg => some (pyRound seg.stop 2)
        | none => none) = some (pyRound last.stop 2)
      rw [hlast]
    · have := pyRound_close last.stop 2
      norm_num at this ⊢
      exact this

theorem c6_json_output_witness :
    (generate_json [⟨0, 1, "a".data⟩] none).segment_count = 1 ∧
    (generate_json [⟨0, 1, "a".data⟩] none).duration = some (pyRound 1 2) ∧
    |pyRound (1:ℚ) 2 - 1| ≤ 1/200 := by
  have h := c6_json_output [⟨0, 1, "a".data⟩] none
  have h5 := h.2.2.2.2 ⟨0, 1, "a".data⟩ rfl
  exact ⟨h.1, h5.1, h5.2⟩

/-! ### Export route errors (C9) -/

/-- C9: on a done job whose preferred data has zero segments but
non-empty text, `srt` and `vtt` exports fail with the 400
"requires segment data" error while `txt` and `json` succeed; the 400
is distinct from the 404 returned when the job is missing or when all
transcript data (segments and text) is missing. -/
theorem c9_export_segmentless (row : Option TranscriptRow) (origText : Str)
    (origSegs : List Segment)
    (hsegs : exportSegments row origSegs = [])
    (htext : exportText row origText ≠ []) :
    export_transcript .srt (some .done) row origText origSegs =
      .error ⟨400, "SRT export requires segment data with timestamps".data⟩ ∧
    export_transcript .vtt (some .done) row origText origSegs =
      .error ⟨400, "VTT export requires segment data with timestamps".data⟩ ∧
    (∃ c, export_transcript .txt (some .done) row origText origSegs = .ok c) ∧
    (∃ c, export_transcript .json (some .done) row origText origSegs = .ok c) ∧
    (∀ fmt, export_transcript fmt none row origText origSegs =
      .error ⟨404, "Job not found".data⟩) ∧
    (∀ fmt r2 t2 s2, exportSegments r2 s2 = [] → exportText r2 t2 = [] →
      export_transcript fmt (some .done) r2 t2 s2 =
        .error ⟨404, "Transcript data not found".data⟩) := by
  refine ⟨?_, ?_, ?_, ?_, ?_, ?_⟩
  · simp [export_transcript, hsegs, htext]
  · simp [export_transcript, hsegs, htext]
  · exact ⟨.textContent (exportText row origText),
      by simp [export_transcript, hsegs, htext]⟩
  · exact ⟨.jsonContent (exportText row origText) [],
      by simp [export_transcript, hsegs, htext]⟩
  · intro fmt
    rfl
  · intro fmt r2 t2 s2 h1 h2
    cases fmt <;> simp [export_transcript, h1, h2]

theorem c9_export_segmentless_witness :
    export_transcript .srt (some .done) none "hi".data [] =
      .error ⟨400, "SRT export requires segment data with timestamps".data⟩ :=
  (c9_export_segmentless none "hi".data [] rfl (by decide)).1

/-! ### Edit precedence (C4) -/

/-- C4 (counterexample): a transcript row storing edited segments
together with an empty edited text (reachable: the edit endpoint
requires a `text` field but accepts the empty string): GET transcript
ignores the stored edited segments and returns the original text and
segments with `edited = false`, while the export route does use the
stored edited segments — so edited segments present in the record do
not take precedence on every read. -/
theorem c4_edit_precedence_counterexample :
    get_transcript (some .done) (some ⟨some [], some [⟨0, 1, "edited".data⟩]⟩)
      "orig".data [⟨0, 1, "orig".data⟩] =
      .ok ⟨"orig".data, [⟨0, 1, "orig".data⟩], false⟩ ∧
    ([⟨0, 1, "orig".data⟩] : List Segment) ≠ [⟨0, 1, "edited".data⟩] ∧
    exportSegments (some ⟨some [], some [⟨0, 1, "edited".data⟩]⟩)
      [⟨0, 1, "orig".data⟩] = [⟨0, 1, "edited".data⟩] :=
  ⟨rfl, by decide, rfl⟩

/-- C4 (amended): precedence of edits is split by path.  On exports,
stored edited segments are used whenever present and edited text
whenever non-empty, each independently.  On GET transcript, the
edited branch is keyed on the edited text alone: when it is non-empty
the response carries it, together with the edited segments when
present (else the original segments); when the edited text is empty
or absent, GET returns the original text and segments even if edited
segments are stored. -/
theorem c4_edit_precedence (t : TranscriptRow) (origText : Str)
    (origSegs : List Segment) :
    (∀ segs, t.edited_segments = some segs →
      exportSegments (some t) origSegs = segs) ∧
    (t.edited_segments = none → exportSegments (some t) origSegs = origSegs) ∧
    (∀ et, t.edited_text = some et → et ≠ [] →
      exportText (some t) origText = et) ∧
    (truthyStr t.edited_text = false → exportText (some t) origText = origText) ∧
    (∀ et segs, t.edited_text = some et → et ≠ [] → t.edited_segments = some segs →
      get_transcript (some .done) (some t) origText origSegs = .ok ⟨et, segs, true⟩) ∧
    (∀ et, t.edited_text = some et → et ≠ [] → t.edited_segments = none →
      get_transcript (some .done) (some t) origText origSegs =
        .ok ⟨et, origSegs, true⟩) ∧
    (truthyStr t.edited_text = false →
      get_transcript (some .done) (some t) origText origSegs =
        (if origText = [] ∧ origSegs = [] then
          .error ⟨404, "Transcript files not found".data⟩
         else .ok ⟨origText, origSegs, false⟩)) := by
  refine ⟨?_, ?_, ?_, ?_, ?_, ?_, ?_⟩
  · intro segs hsegs
    simp [exportSegments, hsegs]
  · intro hsegs
    simp [exportSegments, hsegs]
  · intro et het hne
    simp [exportText, truthyStr, het, hne]
  · intro hf
    simp [exportText, hf]
  · intro et segs het hne hsegs
    have h2 : truthyStr (some et) = true := by simp [truthyStr, hne]
    simp [get_transcript, het, hsegs, h2, hne]
  · intro et het hne hsegs
    have h2 : truthyStr (some et) = true := by simp [truthyStr, hne]
    simp [get_transcript, het, hsegs, h2, hne]
  · intro hf
    by_cases hempty : origText = [] ∧ origSegs = []
    · simp [get_transcript, hf, hempty]
    · simp [get_transcript, hf, hempty]

theorem c4_edit_precedence_witness :
    get_transcript (some .done)
      (some ⟨some "fixed".data, some [⟨0, 1, "fixed".data⟩]⟩)
      "orig".data [⟨0, 1, "orig".data⟩] =
      .ok ⟨"fixed".data, [⟨0, 1, "fixed".data⟩], true⟩ :=
  (c4_edit_precedence ⟨some "fixed".data, some [⟨0, 1, "fixed".data⟩]⟩
      "orig".data [⟨0, 1, "orig".data⟩]).2.2.2.2.1
    "fixed".data [⟨0, 1, "fixed".data⟩] rfl (by decide) rfl

/-! ### Pipeline outcomes (C10, C2) -/

theorem transcriberInit_large :
    transcriberInit "large".data =
      .error ("Invalid model: ".data ++ "large".data) := by
  unfold transcriberInit
  rw [if_neg (by decide)]

theorem transcriberChoice_large (defaultModel : Str) :
    (if ("large".data : Str) ≠ defaultModel then transcriberInit "large".data
     else transcriberInit defaultModel) =
      .error ("Invalid model: ".data ++ "large".data) := by
  by_cases hd : ("large".data : Str) ≠ defaultModel
  · rw [if_pos hd]
    exact transcriberInit_large
  · rw [if_neg hd]
    push_neg at hd
    rw [← hd]
    exact transcriberInit_large

theorem transcriberChoice_large2 (defaultModel : Str) :
    (if ((['l', 'a', 'r', 'g', 'e'] : Str) = defaultModel) then transcriberInit defaultModel
     else transcriberInit ['l', 'a', 'r', 'g', 'e']) =
      .error ("Invalid model: ".data ++ "large".data) := by
  by_cases hd : ((['l', 'a', 'r', 'g', 'e'] : Str) = defaultModel)
  · rw [if_pos hd, ← hd]
    exact transcriberInit_large
  · rw [if_neg hd]
    exact transcriberInit_large

/-- C10: the public `ModelSize` enum accepts the value `large`, which
the transcriber rejects: `large` is absent from `VALID_MODELS` (which
has `large-v2` and `large-v3` instead), so the `Transcriber`
constructor raises, and both transcription pipelines
(`process_file_upload` and `process_youtube_auto_ingest`) end in a
`failed` status for a `large` job no matter how the external stages
behave — such a job can never reach `done`. -/
theorem c10_large_model_always_fails (jobId : ℕ) (defaultModel : Str)
    (envU : UploadEnv) (envI : IngestEnv) (fs : FS) :
    "large".data ∈ modelSizeValues ∧
    "large".data ∉ VALID_MODELS ∧
    transcriberInit "large".data =
      .error ("Invalid model: ".data ++ "large".data) ∧
    statusAfterProcess
      (process_file_upload jobId "large".data defaultModel envU fs).1 = .failed ∧
    statusAfterProcess
      (process_youtube_auto_ingest jobId "large".data defaultModel envI fs).1 =
      .failed := by
  refine ⟨by decide, by decide, transcriberInit_large, ?_, ?_⟩
  · rcases envU with ⟨ie, no, tr⟩
    cases ie
    · rfl
    · cases no
      · rfl
      · simp [process_file_upload, transcriberChoice_large, transcriberChoice_large2, statusAfterProcess]
  · rcases envI with ⟨en, up, du, dl, no, tr⟩
    cases en
    · rfl
    · cases up
      · rfl
      · cases du
        · rfl
        · cases dl
          · rfl
          · cases no
            · rfl
            · simp [process_youtube_auto_ingest, autoIngestTry,
                transcriberChoice_large, transcriberChoice_large2, statusAfterProcess]

/-- C2 (counterexample): a file-upload job whose transcribe stage
fails after normalization succeeded reaches the terminal `failed`
status with the normalized audio file still on disk — the unlink in
`process_file_upload` runs only on the success path, so the cleanup
claim fails for FileUpload jobs. -/
theorem c2_cleanup_counterexample :
    statusAfterProcess
      (process_file_upload 1 "small".data "small".data ⟨true, true, false⟩ []).1 =
      .failed ∧
    FsPath.normalized 1 ∈
      (process_file_upload 1 "small".data "small".data ⟨true, true, false⟩ []).2 := by
  decide

/-- C2 (amended): for YouTubeAutoIngest the `finally` block guarantees
that neither the downloaded source file nor the normalized
intermediate survives the job, whatever the outcome; for FileUpload
the normalized file is removed only when the pipeline succeeds — on a
failure after normalization (transcriber construction or transcribe
stage) the normalized file remains on disk. -/
theorem c2_cleanup (jobId : ℕ) (model defaultModel : Str)
    (envU : UploadEnv) (envI : IngestEnv) (fs : FS)
    (hnp : FsPath.normalized jobId ∉ fs)
    (hdp : FsPath.downloaded jobId ∉ fs) :
    (FsPath.normalized jobId ∉
        (process_youtube_auto_ingest jobId model defaultModel envI fs).2 ∧
      FsPath.downloaded jobId ∉
        (process_youtube_auto_ingest jobId model defaultModel envI fs).2) ∧
    (∀ paths, (process_file_upload jobId model defaultModel envU fs).1 = .ok paths →
      FsPath.normalized jobId ∉
        (process_file_upload jobId model defaultModel envU fs).2) ∧
    (envU.inputExists = true → envU.normalizeOk = true →
      ∀ e, (process_file_upload jobId model defaultModel envU fs).1 = .error e →
        FsPath.normalized jobId ∈
          (process_file_upload jobId model defaultModel envU fs).2) := by
  refine ⟨?_, ?_, ?_⟩
  · rcases envI with ⟨en, up, du, dl, no, tr⟩
    cases en
    · exact ⟨hnp, hdp⟩
    · cases up
      · exact ⟨hnp, hdp⟩
      · constructor <;>
          · simp only [process_youtube_auto_ingest]
            simp [List.mem_filter]
  · rcases envU with ⟨ie, no, tr⟩
    cases ie
    · intro paths h
      exact absurd h (by simp [process_file_upload])
    · cases no
      · intro paths h
        exact absurd h (by simp [process_file_upload])
      · intro paths h
        cases htc : (if model ≠ defaultModel then transcriberInit model
            else transcriberInit defaultModel) with
        | error e =>
          rw [show (process_file_upload jobId model defaultModel ⟨true, true, tr⟩ fs) =
              (.error .transcriberError, FsPath.normalized jobId :: fs) by
            simp [process_file_upload, htc]] at h
          exact absurd h (by simp)
        | ok u =>
          cases tr
          · rw [show (process_file_upload jobId model defaultModel ⟨true, true, false⟩ fs) =
                (.error .transcriberError, FsPath.normalized jobId :: fs) by
              simp [process_file_upload, htc]] at h
            exact absurd h (by simp)
          · simp only [process_file_upload, htc]
            simp [List.mem_filter]
  · rcases envU with ⟨ie, no, tr⟩
    intro hie hno
    cases ie
    · exact absurd hie (by simp)
    · cases no
      · exact absurd hno (by simp)
      · intro e he
        cases htc : (if model ≠ defaultModel then transcriberInit model
            else transcriberInit defaultModel) with
        | error e2 =>
          simp [process_file_upload, htc]
        | ok u =>
          cases tr
          · simp [process_file_upload, htc]
          · rw [show (process_file_upload jobId model defaultModel ⟨true, true, true⟩ fs) =
                (.ok (artifactPaths jobId),
                  (artifactPaths jobId ++ FsPath.normalized jobId :: fs).filter
                    (· ≠ FsPath.normalized jobId)) by
              simp [process_file_upload, htc]] at he
            exact absurd he (by simp)

theorem c2_cleanup_witness :
    FsPath.normalized 3 ∉
      (process_youtube_auto_ingest 3 "small".data "small".data
        ⟨true, true, true, true, true, false⟩ []).2 :=
  (c2_cleanup 3 "small".data "small".data ⟨true, true, false⟩
    ⟨true, true, true, true, true, false⟩ [] (by decide) (by decide)).1.1

/-! ### Claiming order (C3) -/

theorem get_next_job_none_of_no_queued (jobs : List Job)
    (h : ∀ j ∈ jobs, j.status ≠ .queued) : get_next_job jobs = none := by
  induction jobs with
  | nil => rfl
  | cons a rest ih =>
    have ha : a.status ≠ .queued := h a (List.mem_cons_self a rest)
    simp only [get_next_job, if_neg ha]
    exact ih fun j hj => h j (List.mem_cons_of_mem a hj)

theorem no_queued_of_get_next_job_none (jobs : List Job)
    (h : get_next_job jobs = none) : ∀ j ∈ jobs, j.status ≠ .queued := by
  induction jobs with
  | nil => simp
  | cons a rest ih =>
    simp only [get_next_job] at h
    by_cases hs : a.status = .queued
    · rw [if_pos hs] at h
      cases hr : get_next_job rest with
      | none => rw [hr] at h; exact absurd h (by simp)
      | some b =>
        rw [hr] at h
        have h2 : (if a.createdAt ≤ b.createdAt then some a else some b) = none := h
        by_cases hab : a.createdAt ≤ b.createdAt
        · rw [if_pos hab] at h2; exact absurd h2 (by simp)
        · rw [if_neg hab] at h2; exact absurd h2 (by simp)
    · rw [if_neg hs] at h
      intro j hj
      rcases List.mem_cons.mp hj with hj1 | hj2
      · subst hj1; exact hs
      · exact ih h j hj2

theorem get_next_job_spec (jobs : List Job) (j : Job)
    (h : get_next_job jobs = some j) :
    j ∈ jobs ∧ j.status = .queued ∧
      ∀ k ∈ jobs, k.status = .queued → j.createdAt ≤ k.createdAt := by
  induction jobs generalizing j with
  | nil => exact absurd h (by simp [get_next_job])
  | cons a rest ih =>
    simp only [get_next_job] at h
    by_cases hs : a.status = .queued
    · rw [if_pos hs] at h
      cases hr : get_next_job rest with
      | none =>
        rw [hr] at h
        have h2 : some a = some j := h
        have haj : a = j := by injection h2
        subst haj
        refine ⟨List.mem_cons_self a rest, hs, ?_⟩
        intro k hk hkq
        rcases List.mem_cons.mp hk with hk1 | hk2
        · subst hk1; exact le_refl _
        · exact absurd hkq (no_queued_of_get_next_job_none rest hr k hk2)
      | some b =>
        rw [hr] at h
        have h2 : (if a.createdAt ≤ b.createdAt then some a else some b) = some j := h
        rcases ih b hr with ⟨hbmem, hbq, hbmin⟩
        by_cases hab : a.createdAt ≤ b.createdAt
        · rw [if_pos hab] at h2
          have haj : a = j := by injection h2
          subst haj
          refine ⟨List.mem_cons_self a rest, hs, ?_⟩
          intro k hk hkq
          rcases List.mem_cons.mp hk with hk1 | hk2
          · subst hk1; exact le_refl _
          · exact le_trans hab (hbmin k hk2 hkq)
        · rw [if_neg hab] at h2
          have hbj : b = j := by injection h2
          subst hbj
          refine ⟨List.mem_cons_of_mem a hbmem, hbq, ?_⟩
          intro k hk hkq
          rcases List.mem_cons.mp hk with hk1 | hk2
          · subst hk1
            exact le_of_lt (lt_of_not_le hab)
          · exact hbmin k hk2 hkq
    · rw [if_neg hs] at h
      rcases ih j h with ⟨hmem, hq, hmin⟩
      refine ⟨List.mem_cons_of_mem a hmem, hq, ?_⟩
      intro k hk hkq
      rcases List.mem_cons.mp hk with hk1 | hk2
      · subst hk1; exact absurd hkq hs
      · exact hmin k hk2 hkq

/-- C3: `get_next_job` returns `None` exactly when no job is queued;
otherwise it returns a queued job whose `created_at` is minimal among
all queued jobs (first-in-first-out, no priority) — consequently an
older queued job is never passed over in favour of a younger one, so
queued jobs created at `t1 < t2 < t3` are claimed in that order. -/
theorem c3_fifo_claiming (jobs : List Job) :
    (get_next_job jobs = none ↔ ∀ j ∈ jobs, j.status ≠ .queued) ∧
    (∀ j, get_next_job jobs = some j →
      j ∈ jobs ∧ j.status = .queued ∧
        ∀ k ∈ jobs, k.status = .queued → j.createdAt ≤ k.createdAt) ∧
    (∀ a b, a ∈ jobs → b ∈ jobs → a.status = .queued → b.status = .queued →
      a.createdAt < b.createdAt → get_next_job jobs ≠ some b) := by
  refine ⟨⟨no_queued_of_get_next_job_none jobs,
    get_next_job_none_of_no_queued jobs⟩, get_next_job_spec jobs, ?_⟩
  intro a b ha _ haq _ hlt hres
  rcases get_next_job_spec jobs b hres with ⟨_, _, hmin⟩
  exact absurd (hmin a ha haq) (not_le.mpr hlt)

theorem c3_fifo_claiming_witness :
    get_next_job [sampleJob, sampleJob2] ≠ some sampleJob2 :=
  (c3_fifo_claiming [sampleJob, sampleJob2]).2.2 sampleJob sampleJob2
    (by decide) (by decide) (by decide) (by decide) (by decide)

/-! ### Dispatch state machine (C1) -/

theorem map_id_update (jobs : List Job) (id : ℕ) (st : Status) :
    (update_job_status jobs id st).map Job.id = jobs.map Job.id := by
  induction jobs with
  | nil => rfl
  | cons a rest ih =>
    simp only [update_job_status, List.map_cons] at ih ⊢
    by_cases h : a.id = id <;> simp [h, ih]

theorem job_unique {jobs : List Job} (hnd : (jobs.map Job.id).Nodup)
    {a b : Job} (ha : a ∈ jobs) (hb : b ∈ jobs) (hid : a.id = b.id) : a = b :=
  List.inj_on_of_nodup_map hnd ha hb hid

theorem mem_update_job_status {jobs : List Job} {id : ℕ} {st : Status} {j2 : Job}
    (h : j2 ∈ update_job_status jobs id st) :
    ∃ j ∈ jobs,
      j2 = if j.id = id then { j with status := st, history := j.history ++ [st] }
           else j := by
  rcases List.mem_map.mp h with ⟨j, hj, hfj⟩
  exact ⟨j, hj, hfj.symm⟩

theorem okHistory_last_queued {h : List Status} (hok : okHistory h)
    (hl : h.getLast? = some .queued) : h = [.queued] := by
  rcases hok with h1 | h1 | h1 | h1
  · exact h1
  · rw [h1] at hl; exact absurd hl (by decide)
  · rw [h1] at hl; exact absurd hl (by decide)
  · rw [h1] at hl; exact absurd hl (by decide)

theorem okHistory_last_running {h : List Status} (hok : okHistory h)
    (hl : h.getLast? = some .running) : h = [.queued, .running] := by
  rcases hok with h1 | h1 | h1 | h1
  · rw [h1] at hl; exact absurd hl (by decide)
  · exact h1
  · rw [h1] at hl; exact absurd hl (by decide)
  · rw [h1] at hl; exact absurd hl (by decide)

theorem winv_init : WInv ⟨[], none⟩ := by
  refine ⟨by simp, by simp, ?_⟩
  intro id h
  exact absurd h (by simp)

theorem winv_step {s t : WState} (hinv : WInv s) (hstep : WStep s t) : WInv t := by
  rcases hinv with ⟨hnd, hhist, hflight⟩
  cases hstep with
  | create j hfresh hst hh =>
    refine ⟨?_, ?_, ?_⟩
    · rw [List.map_append]
      refine List.Nodup.append hnd (by simp) ?_
      intro x hx hx2
      rcases List.mem_map.mp hx with ⟨k, hk, hkid⟩
      simp only [List.map_cons, List.map_nil, List.mem_singleton] at hx2
      exact hfresh k hk (hkid.symm ▸ hx2)
    · intro j2 hj2
      rcases List.mem_append.mp hj2 with hm | hm
      · exact hhist j2 hm
      · have : j2 = j := by simpa using hm
        subst this
        rw [hh, hst]
        exact ⟨Or.inl rfl, rfl⟩
    · intro id hid
      rcases hflight id hid with ⟨k, hk, hkid, hkrun⟩
      exact ⟨k, List.mem_append_left _ hk, hkid, hkrun⟩
  | claim j hidle hj =>
    rcases get_next_job_spec s.jobs j hj with ⟨hjmem, hjq, _⟩
    have hjh : j.history = [.queued] := by
      rcases hhist j hjmem with ⟨hok, hlast⟩
      exact okHistory_last_queued hok (by rw [hlast, hjq])
    refine ⟨?_, ?_, ?_⟩
    · rw [map_id_update]
      exact hnd
    · intro j2 hj2
      rcases mem_update_job_status hj2 with ⟨orig, horig, heq⟩
      by_cases hoid : orig.id = j.id
      · have : orig = j := job_unique hnd horig hjmem hoid
        subst this
        rw [if_pos hoid] at heq
        subst heq
        rw [hjh]
        exact ⟨Or.inr (Or.inl rfl), rfl⟩
      · rw [if_neg hoid] at heq
        subst heq
        exact hhist _ horig
    · intro id hid
      have hidj : id = j.id := by
        simpa using hid.symm
      subst hidj
      refine ⟨{ j with status := .running, history := j.history ++ [.running] }, ?_, rfl, rfl⟩
      have : ({ j with status := .running, history := j.history ++ [.running] } : Job) =
          (if j.id = j.id then
            { j with status := .running, history := j.history ++ [.running] } else j) := by
        rw [if_pos rfl]
      rw [this]
      exact List.mem_map_of_mem _ hjmem
  | finish id ok hrun =>
    rcases hflight id hrun with ⟨jr, hjrmem, hjrid, hjrrun⟩
    have hjrh : jr.history = [.queued, .running] := by
      rcases hhist jr hjrmem with ⟨hok, hlast⟩
      exact okHistory_last_running hok (by rw [hlast, hjrrun])
    refine ⟨?_, ?_, ?_⟩
    · rw [map_id_update]
      exact hnd
    · intro j2 hj2
      rcases mem_update_job_status hj2 with ⟨orig, horig, heq⟩
      by_cases hoid : orig.id = id
      · have : orig = jr := job_unique hnd horig hjrmem (hoid.trans hjrid.symm)
        subst this
        rw [if_pos hoid] at heq
        subst heq
        rw [hjrh]
        cases ok
        · exact ⟨Or.inr (Or.inr (Or.inr rfl)), rfl⟩
        · exact ⟨Or.inr (Or.inr (Or.inl rfl)), rfl⟩
      · rw [if_neg hoid] at heq
        subst heq
        exact hhist _ horig
    · intro id2 hid2
      exact absurd hid2 (by simp)
  | idle =>
    exact ⟨hnd, hhist, hflight⟩

theorem reachable_winv {s : WState} (hs : Reachable s) : WInv s := by
  induction hs with
  | init => exact winv_init
  | step hr hstep ih => exact winv_step ih hstep

/-- C1: in every reachable dispatcher state, each job row has been
observed only through one of the status sequences `queued`,
`queued, running`, `queued, running, done`, `queued, running, failed`
(each a prefix of `queued, running, (done | failed)`), its current
status is the last observation; and no worker or API step ever
modifies a row whose status is `done` or `failed` — terminal rows
pass unchanged (same status, same history) into every successor
state. -/
theorem c1_status_lifecycle (s : WState) (hs : Reachable s) :
    (∀ j ∈ s.jobs, okHistory j.history ∧ j.history.getLast? = some j.status) ∧
    (∀ t : WState, WStep s t → ∀ j ∈ s.jobs,
      (j.status = .done ∨ j.status = .failed) →
      ∀ j2 ∈ t.jobs, j2.id = j.id → j2 = j) := by
  have hinv := reachable_winv hs
  rcases hinv with ⟨hnd, hhist, hflight⟩
  refine ⟨hhist, ?_⟩
  intro t hstep j hj hterm j2 hj2 hid
  cases hstep with
  | create k hfresh hst hh =>
    rcases List.mem_append.mp hj2 with hm | hm
    · exact job_unique hnd hm hj hid
    · have hk : j2 = k := by simpa using hm
      subst hk
      exact absurd hid.symm (hfresh j hj)
  | claim jc hidle hjc =>
    rcases get_next_job_spec s.jobs jc hjc with ⟨hjcmem, hjcq, _⟩
    rcases mem_update_job_status hj2 with ⟨orig, horig, heq⟩
    by_cases hoid : orig.id = jc.id
    · have horigjc : orig = jc := job_unique hnd horig hjcmem hoid
      subst horigjc
      rw [if_pos hoid] at heq
      have hj2id : j2.id = orig.id := by rw [heq]
      have : orig = j := job_unique hnd horig hj (by rw [← hj2id, hid])
      subst this
      rcases hterm with hdone | hfail
      · rw [hdone] at hjcq; exact absurd hjcq (by decide)
      · rw [hfail] at hjcq; exact absurd hjcq (by decide)
    · rw [if_neg hoid] at heq
      subst heq
      exact job_unique hnd horig hj hid
  | finish id ok hrun =>
    rcases hflight id hrun with ⟨jr, hjrmem, hjrid, hjrrun⟩
    rcases mem_update_job_status hj2 with ⟨orig, horig, heq⟩
    by_cases hoid : orig.id = id
    · have horigjr : orig = jr := job_unique hnd horig hjrmem (hoid.trans hjrid.symm)
      subst horigjr
      rw [if_pos hoid] at heq
      have hj2id : j2.id = orig.id := by rw [heq]
      have : orig = j := job_unique hnd horig hj (by rw [← hj2id, hid])
      subst this
      rcases hterm with hdone | hfail
      · rw [hdone] at hjrrun; exact absurd hjrrun (by decide)
      · rw [hfail] at hjrrun; exact absurd hjrrun (by decide)
    · rw [if_neg hoid] at heq
      subst heq
      exact job_unique hnd horig hj hid
  | idle =>
    exact job_unique hnd hj2 hj hid

theorem c1_status_lifecycle_witness :
    okHistory [Status.queued, Status.running, Status.done] ∧
    ([Status.queued, Status.running, Status.done].getLast? = some Status.done) := by
  have h0 : Reachable ⟨[], none⟩ := Reachable.init
  have h1 : Reachable ⟨[] ++ [sampleJob], none⟩ :=
    h0.step (WStep.create _ sampleJob (by simp) rfl rfl)
  have h2 : Reachable ⟨update_job_status ([] ++ [sampleJob]) sampleJob.id .running,
      some sampleJob.id⟩ :=
    h1.step (WStep.claim _ sampleJob rfl (by decide))
  have h3 : Reachable ⟨update_job_status
      (update_job_status ([] ++ [sampleJob]) sampleJob.id .running) sampleJob.id
      (if true then .done else .failed), none⟩ :=
    h2.step (WStep.finish _ sampleJob.id true rfl)
  have hmem : (⟨0, .file_upload, "small".data, .done, 0,
      [Status.queued, Status.running, Status.done]⟩ : Job) ∈
      (update_job_status
        (update_job_status ([] ++ [sampleJob]) sampleJob.id .running) sampleJob.id
        (if true then .done else .failed)) := by
    decide
  exact (c1_status_lifecycle _ h3).1 _ hmem

end LocalTranscript
